import Mathlib

/-!
# everybot-core: `pkg/helpers` and `pkg/file`

A shallow embedding of the helper functions of `pkg/helpers/helpers.go` and
`pkg/file/file.go`, with the properties stated by the specification of the repository.

Conventions of the embedding.

* A Go `string` / `[]byte` is the list of its bytes, each byte a `Nat` below 256.
* A Go call that can panic returns `Except Panic α`.
* The outside world (random sources, the file system, the HTTP exchange) is an
  explicit argument: a script of `Read` outcomes, a stream of `Intn` results, a
  file-system state, the outcome of each library call.
-/

namespace helpers

/-! ## Errors and panics -/

/-- Go `error` values that the helpers can observe. -/
inductive GoError where
  | EOF
  | ErrUnexpectedEOF
  | ErrShortBuffer
  | ErrNotExist
  | ErrPermission
  | ErrNotDir
  | ErrExist
  | other (code : Nat)
  deriving DecidableEq, Repr

/-- What a panicking Go call carries: the argument of an explicit `panic(err)` (which may be
the nil error), or a run-time panic raised by the language itself. -/
inductive Panic where
  | value (err : Option GoError)
  | makesliceLen
  | indexOutOfRange (i len : Nat)
  | reflectKind (method : String)
  deriving DecidableEq, Repr

deriving instance DecidableEq for Except

/-- Indexing `xs[i]` with the bounds check of Go. -/
def index (xs : List Nat) (i : Nat) : Except Panic Nat :=
  match xs[i]? with
  | some x => .ok x
  | none => .error (.indexOutOfRange i xs.length)

/-! ## `crypto/rand.Reader` and `io.ReadAtLeast` -/

/-- One call of `Read` on the random source: the bytes it has ready and the error it reports. -/
structure ReadStep where
  data : List Nat
  err : Option GoError
  deriving DecidableEq, Repr

/-- An `io.Reader` is the script of the outcomes of its successive `Read` calls; past the end
of the script every `Read` returns `0, io.EOF`. -/
abbrev Reader := List ReadStep

/-- The loop of `io.ReadAtLeast`:
`for n < min && err == nil { nn, err = r.Read(buf[n:]); n += nn }`.
It is entered with `err == nil`; a `Read` into `buf[n:]` stores at most `len(buf) - n` bytes. -/
def readAtLeastLoop (min : Nat) : Reader → List Nat → Nat → Nat × Option GoError × List Nat
  | [], buf, n => if n < min then (n, some .EOF, buf) else (n, none, buf)
  | s :: rest, buf, n =>
    if n < min then
      let chunk := (s.data.take (buf.length - n)).map (· % 256)
      let buf1 := buf.take n ++ chunk ++ buf.drop (n + chunk.length)
      match s.err with
      | none => readAtLeastLoop min rest buf1 (n + chunk.length)
      | some e => (n + chunk.length, some e, buf1)
    else (n, none, buf)

/-- Go `io.ReadAtLeast(r, buf, min)`: the number of bytes read, the error, and the buffer. -/
def ReadAtLeast (r : Reader) (buf : List Nat) (min : Nat) : Nat × Option GoError × List Nat :=
  if buf.length < min then (0, some .ErrShortBuffer, buf)
  else
    match readAtLeastLoop min r buf 0 with
    | (n, err, buf1) =>
      if n ≥ min then (n, none, buf1)
      else if n > 0 ∧ err = some .EOF then (n, some .ErrUnexpectedEOF, buf1)
      else (n, err, buf1)

/-- Number of bytes the source can supply before it stops: the bytes of every step up to and
including the first step that reports an error. -/
def available : Reader → Nat
  | [] => 0
  | s :: rest =>
    match s.err with
    | none => s.data.length + available rest
    | some _ => s.data.length

/-! ## `RandomNumber` -/

/-- The array `table` of `RandomNumber`. -/
def table : List Nat :=
  ['1'.toNat, '2'.toNat, '3'.toNat, '4'.toNat, '5'.toNat,
   '6'.toNat, '7'.toNat, '8'.toNat, '9'.toNat, '0'.toNat]

/-- Go `make([]byte, length)`: the run time panics (`makeslice: len out of range`) on a
negative length and on a length above its allocation limit `maxAlloc` (a constant of the
platform, `2 ^ 48` bytes on amd64); otherwise the result is `length` zero bytes. -/
def makeBytes (maxAlloc : Nat) (length : Int) : Except Panic (List Nat) :=
  if length < 0 ∨ (maxAlloc : Int) < length then .error .makesliceLen
  else .ok (List.replicate length.toNat 0)

/-- The function `RandomNumber`, reading from the random source `rd`, on a platform whose
allocation limit is `maxAlloc`. -/
def RandomNumber (maxAlloc : Nat) (rd : Reader) (length : Int) : Except Panic (List Nat) := do
  let b ← makeBytes maxAlloc length
  match ReadAtLeast rd b length.toNat with
  | (n, err, b) =>
    if (n : Int) ≠ length then
      .error (.value err)
    else
      b.mapM (fun x => index table (x % table.length))

/-! ## `RandomString` -/

/-- The string constant `letters` of `RandomString`. -/
def letters : List Nat :=
  "abcdefghijklmnopqrstuvwxyzABCDEFGHIJKLMNOPQRSTUVWXYZ".toList.map Char.toNat

/-- The function `RandomString` on a platform whose allocation limit is `maxAlloc`; `intn i`
is the result of the `i`-th call `mathrand.Intn(len(letters))` after the generator was seeded
from the clock. -/
def RandomString (maxAlloc : Nat) (intn : Nat → Nat) (length : Int) :
    Except Panic (List Nat) := do
  let b ← makeBytes maxAlloc length
  (List.range b.length).mapM (fun i => index letters (intn i))

/-- The byte is one of the characters `0` to `9`. -/
def isDigit (c : Nat) : Prop := '0'.toNat ≤ c ∧ c ≤ '9'.toNat

/-- The byte is one of the characters `a` to `z` or `A` to `Z`. -/
def isLetter (c : Nat) : Prop :=
  ('a'.toNat ≤ c ∧ c ≤ 'z'.toNat) ∨ ('A'.toNat ≤ c ∧ c ≤ 'Z'.toNat)

instance (c : Nat) : Decidable (isDigit c) := by unfold isDigit; infer_instance
instance (c : Nat) : Decidable (isLetter c) := by unfold isLetter; infer_instance

/-! ## Go values as seen by `reflect` -/

/-- The kinds of `reflect.Kind`. -/
inductive Kind where
  | Invalid | Bool
  | Int | Int8 | Int16 | Int32 | Int64
  | Uint | Uint8 | Uint16 | Uint32 | Uint64 | Uintptr
  | Float32 | Float64 | Complex64 | Complex128
  | Array | Chan | Func | Interface | Map | Ptr | Slice | String | Struct | UnsafePointer
  deriving DecidableEq, Repr

/-- The signed integer types. -/
inductive IntKind where
  | Int | Int8 | Int16 | Int32 | Int64
  deriving DecidableEq, Repr

/-- The unsigned integer types. -/
inductive UintKind where
  | Uint | Uint8 | Uint16 | Uint32 | Uint64 | Uintptr
  deriving DecidableEq, Repr

/-- The floating-point types. -/
inductive FloatKind where
  | Float32 | Float64
  deriving DecidableEq, Repr

/-- The complex types. -/
inductive ComplexKind where
  | Complex64 | Complex128
  deriving DecidableEq, Repr

/-- A floating-point datum in decoded form: a finite number is `± mant * 2 ^ exp` (both signed
zeros are finite numbers with `mant = 0`); the rest are the infinities and NaN. The conversion
`float32 → float64` done by `reflect.Value.Float` is exact, so it is the identity here. -/
inductive GoFloat where
  | finite (neg : Bool) (mant : Nat) (exp : Int)
  | inf (neg : Bool)
  | nan
  deriving DecidableEq, Repr

namespace GoFloat

/-- The significand with its sign. -/
def signedMant (neg : Bool) (mant : Nat) : Int :=
  if neg then -(mant : Int) else (mant : Int)

/-- Go `x == y` on floats (IEEE 754): NaN equals nothing, the two zeros are equal, finite
numbers are compared by value after scaling both to the smaller exponent. -/
def eq : GoFloat → GoFloat → Bool
  | .finite s1 m1 e1, .finite s2 m2 e2 =>
    signedMant s1 m1 * 2 ^ (e1 - min e1 e2).toNat == signedMant s2 m2 * 2 ^ (e2 - min e1 e2).toNat
  | .inf s1, .inf s2 => s1 == s2
  | _, _ => false

/-- The float constant `0`. -/
def zero : GoFloat := .finite false 0 0

/-- The number a float denotes; infinities and NaN denote none. -/
def value : GoFloat → Option ℚ
  | .finite s m e => some ((signedMant s m : ℚ) * (2 : ℚ) ^ e)
  | _ => none

end GoFloat

mutual
/-- Go types, up to the names of defined types, fields and methods (which no operation used by
`Empty` looks at). -/
inductive GoType where
  | bool
  | int (k : IntKind)
  | uint (k : UintKind)
  | float (k : FloatKind)
  | complex (k : ComplexKind)
  | string
  | array (n : Nat) (elem : GoType)
  | slice (elem : GoType)
  | map (key elem : GoType)
  | ptr (elem : GoType)
  | chan (elem : GoType)
  | func (sig : Nat)
  | iface
  | struct (fields : GoTypes)
  | unsafePointer
  deriving DecidableEq, Repr
/-- A list of Go types (the fields of a struct type). -/
inductive GoTypes where
  | nil
  | cons (t : GoType) (ts : GoTypes)
  deriving DecidableEq, Repr
end

mutual
/-- Go values as finite trees. A non-nil slice, map, pointer, channel or function carries the
address that the Go operator `==` (and the identity shortcut of `reflect.DeepEqual`) compares; an empty
array, nil slice, nil map, nil pointer and nil channel carry their element types, so that the
type of every value can be read off the value. `ifaceNil` and `iface` are the values of
interface type found inside containers and structs. -/
inductive GoValue where
  | bool (b : Bool)
  | int (k : IntKind) (n : Int)
  | uint (k : UintKind) (n : Nat)
  | float (k : FloatKind) (f : GoFloat)
  | complex (k : ComplexKind) (re im : GoFloat)
  | string (s : List Nat)
  | array (elem : GoType) (xs : GoValues)
  | sliceNil (elem : GoType)
  | slice (elem : GoType) (base : Nat) (xs : GoValues)
  | mapNil (key elem : GoType)
  | map (key elem : GoType) (addr : Nat) (entries : GoEntries)
  | ptrNil (elem : GoType)
  | ptr (elem : GoType) (addr : Nat) (target : GoValue)
  | chanNil (elem : GoType)
  | chan (elem : GoType) (addr : Nat) (buffered : Nat)
  | funcNil (sig : Nat)
  | func (sig : Nat) (addr : Nat)
  | ifaceNil
  | iface (dyn : GoValue)
  | struct (fields : GoValues)
  | unsafePointer (addr : Nat)
  deriving Repr
/-- A list of Go values (array and slice elements, struct fields). -/
inductive GoValues where
  | nil
  | cons (v : GoValue) (vs : GoValues)
  deriving Repr
/-- The entries of a map. -/
inductive GoEntries where
  | nil
  | cons (k v : GoValue) (rest : GoEntries)
  deriving Repr
end

/-- Number of values in a list. -/
def GoValues.length : GoValues → Nat
  | .nil => 0
  | .cons _ vs => vs.length + 1

/-- Number of entries of a map. -/
def GoEntries.length : GoEntries → Nat
  | .nil => 0
  | .cons _ _ rest => rest.length + 1

/-- The list of `n` copies of `v`. -/
def GoValues.replicate : Nat → GoValue → GoValues
  | 0, _ => .nil
  | n + 1, v => .cons v (GoValues.replicate n v)

mutual
/-- Go `v.Type()`: the type of a value. -/
def GoValue.Type : GoValue → GoType
  | .bool _ => .bool
  | .int k _ => .int k
  | .uint k _ => .uint k
  | .float k _ => .float k
  | .complex k _ _ => .complex k
  | .string _ => .string
  | .array elem xs => .array xs.length elem
  | .sliceNil elem => .slice elem
  | .slice elem _ _ => .slice elem
  | .mapNil key elem => .map key elem
  | .map key elem _ _ => .map key elem
  | .ptrNil elem => .ptr elem
  | .ptr elem _ _ => .ptr elem
  | .chanNil elem => .chan elem
  | .chan elem _ _ => .chan elem
  | .funcNil sig => .func sig
  | .func sig _ => .func sig
  | .ifaceNil => .iface
  | .iface _ => .iface
  | .struct fields => .struct (GoValues.Types fields)
  | .unsafePointer _ => .unsafePointer
/-- The types of the values of a list. -/
def GoValues.Types : GoValues → GoTypes
  | .nil => .nil
  | .cons v vs => .cons (GoValue.Type v) (GoValues.Types vs)
end

/-- Go `t.Kind()`. -/
def GoType.Kind : GoType → Kind
  | .bool => .Bool
  | .int .Int => .Int
  | .int .Int8 => .Int8
  | .int .Int16 => .Int16
  | .int .Int32 => .Int32
  | .int .Int64 => .Int64
  | .uint .Uint => .Uint
  | .uint .Uint8 => .Uint8
  | .uint .Uint16 => .Uint16
  | .uint .Uint32 => .Uint32
  | .uint .Uint64 => .Uint64
  | .uint .Uintptr => .Uintptr
  | .float .Float32 => .Float32
  | .float .Float64 => .Float64
  | .complex .Complex64 => .Complex64
  | .complex .Complex128 => .Complex128
  | .string => .String
  | .array _ _ => .Array
  | .slice _ => .Slice
  | .map _ _ => .Map
  | .ptr _ => .Ptr
  | .chan _ => .Chan
  | .func _ => .Func
  | .iface => .Interface
  | .struct _ => .Struct
  | .unsafePointer => .UnsafePointer

/-- Go `v.Kind()`. -/
def GoValue.Kind (v : GoValue) : Kind := v.Type.Kind

/-- Go `v.Len()`: panics unless the kind is Array, Chan, Map, Slice or String. -/
def GoValue.Len : GoValue → Except Panic Nat
  | .string s => .ok s.length
  | .array _ xs => .ok xs.length
  | .sliceNil _ => .ok 0
  | .slice _ _ xs => .ok xs.length
  | .mapNil _ _ => .ok 0
  | .map _ _ _ entries => .ok entries.length
  | .chanNil _ => .ok 0
  | .chan _ _ buffered => .ok buffered
  | _ => .error (.reflectKind "Len")

/-- Go `v.IsNil()`: panics unless the kind is Chan, Func, Interface, Map, Pointer, Slice or
UnsafePointer. -/
def GoValue.IsNil : GoValue → Except Panic Bool
  | .sliceNil _ => .ok true
  | .slice _ _ _ => .ok false
  | .mapNil _ _ => .ok true
  | .map _ _ _ _ => .ok false
  | .ptrNil _ => .ok true
  | .ptr _ _ _ => .ok false
  | .chanNil _ => .ok true
  | .chan _ _ _ => .ok false
  | .funcNil _ => .ok true
  | .func _ _ => .ok false
  | .ifaceNil => .ok true
  | .iface _ => .ok false
  | .unsafePointer addr => .ok (addr == 0)
  | _ => .error (.reflectKind "IsNil")

/-- Go `v.Bool()`: panics unless the kind is Bool. -/
def GoValue.Bool : GoValue → Except Panic Bool
  | .bool b => .ok b
  | _ => .error (.reflectKind "Bool")

/-- Go `v.Int()`: the value as an `int64`; panics unless the kind is a signed integer kind. -/
def GoValue.Int : GoValue → Except Panic Int
  | .int _ n => .ok n
  | _ => .error (.reflectKind "Int")

/-- Go `v.Uint()`: the value as a `uint64`; panics unless the kind is an unsigned integer
kind. -/
def GoValue.Uint : GoValue → Except Panic Nat
  | .uint _ n => .ok n
  | _ => .error (.reflectKind "Uint")

/-- Go `v.Float()`: the value as a `float64`; panics unless the kind is a float kind. -/
def GoValue.Float : GoValue → Except Panic GoFloat
  | .float _ f => .ok f
  | _ => .error (.reflectKind "Float")

mutual
/-- Go `reflect.Zero(t)`: the zero value of a type. -/
def Zero : GoType → GoValue
  | .bool => .bool false
  | .int k => .int k 0
  | .uint k => .uint k 0
  | .float k => .float k GoFloat.zero
  | .complex k => .complex k GoFloat.zero GoFloat.zero
  | .string => .string []
  | .array n elem => .array elem (GoValues.replicate n (Zero elem))
  | .slice elem => .sliceNil elem
  | .map key elem => .mapNil key elem
  | .ptr elem => .ptrNil elem
  | .chan elem => .chanNil elem
  | .func sig => .funcNil sig
  | .iface => .ifaceNil
  | .struct fields => .struct (Zeros fields)
  | .unsafePointer => .unsafePointer 0
/-- The zero values of a list of types. -/
def Zeros : GoTypes → GoValues
  | .nil => .nil
  | .cons t ts => .cons (Zero t) (Zeros ts)
end

mutual
/-- Go `x == y` on two values of one comparable type; slices, maps and functions are not
comparable and are never map keys. -/
def goEq (v1 v2 : GoValue) : Bool :=
  match v1 with
  | .bool a => match v2 with | .bool b => a == b | _ => false
  | .int _ a => match v2 with | .int _ b => a == b | _ => false
  | .uint _ a => match v2 with | .uint _ b => a == b | _ => false
  | .float _ a => match v2 with | .float _ b => a.eq b | _ => false
  | .complex _ a1 a2 => match v2 with | .complex _ b1 b2 => a1.eq b1 && a2.eq b2 | _ => false
  | .string a => match v2 with | .string b => a == b | _ => false
  | .array _ xs => match v2 with | .array _ ys => goEqs xs ys | _ => false
  | .ptrNil _ => match v2 with | .ptrNil _ => true | _ => false
  | .ptr _ a _ => match v2 with | .ptr _ b _ => a == b | _ => false
  | .chanNil _ => match v2 with | .chanNil _ => true | _ => false
  | .chan _ a _ => match v2 with | .chan _ b _ => a == b | _ => false
  | .ifaceNil => match v2 with | .ifaceNil => true | _ => false
  | .iface a => match v2 with | .iface b => a.Type == b.Type && goEq a b | _ => false
  | .struct xs => match v2 with | .struct ys => goEqs xs ys | _ => false
  | .unsafePointer a => match v2 with | .unsafePointer b => a == b | _ => false
  | _ => false
/-- Go `==` element by element. -/
def goEqs (xs ys : GoValues) : Bool :=
  match xs with
  | .nil => match ys with | .nil => true | _ => false
  | .cons a as => match ys with | .cons b bs => goEq a b && goEqs as bs | _ => false
end

/-- Go `m.MapIndex(key)`: the value stored under a key equal (`==`) to `key`, if any. -/
def mapIndex : GoEntries → GoValue → Option GoValue
  | .nil, _ => none
  | .cons k v rest, key => if goEq k key then some v else mapIndex rest key

mutual
/-- The function `deepValueEqual` of package `reflect`, on acyclic values: the type test, then
the switch on the kind of `v1`. -/
def deepValueEqual (v1 v2 : GoValue) : Bool :=
  if v1.Type ≠ v2.Type then false
  else
    match v1 with
    | .array _ xs => match v2 with | .array _ ys => deepValuesEqual xs ys | _ => false
    | .sliceNil _ => match v2 with | .sliceNil _ => true | _ => false
    | .slice _ b1 xs =>
      match v2 with
      | .slice _ b2 ys =>
        if xs.length ≠ ys.length then false
        else if b1 == b2 then true
        else deepValuesEqual xs ys
      | _ => false
    | .ifaceNil => match v2 with | .ifaceNil => true | _ => false
    | .iface a => match v2 with | .iface b => deepValueEqual a b | _ => false
    | .ptrNil _ => match v2 with | .ptrNil _ => true | _ => false
    | .ptr _ a1 t1 =>
      match v2 with
      | .ptr _ a2 t2 => if a1 == a2 then true else deepValueEqual t1 t2
      | _ => false
    | .struct xs => match v2 with | .struct ys => deepValuesEqual xs ys | _ => false
    | .mapNil _ _ => match v2 with | .mapNil _ _ => true | _ => false
    | .map _ _ a1 es1 =>
      match v2 with
      | .map _ _ a2 es2 =>
        if es1.length ≠ es2.length then false
        else if a1 == a2 then true
        else deepEntriesEqual es1 es2
      | _ => false
    | .funcNil _ => match v2 with | .funcNil _ => true | _ => false
    | .func _ _ => false
    | .int _ a => match v2 with | .int _ b => a == b | _ => false
    | .uint _ a => match v2 with | .uint _ b => a == b | _ => false
    | .string a => match v2 with | .string b => a == b | _ => false
    | .bool a => match v2 with | .bool b => a == b | _ => false
    | .float _ a => match v2 with | .float _ b => a.eq b | _ => false
    | .complex _ a1 a2 => match v2 with | .complex _ b1 b2 => a1.eq b1 && a2.eq b2 | _ => false
    | .chanNil _ => match v2 with | .chanNil _ => true | _ => false
    | .chan _ a _ => match v2 with | .chan _ b _ => a == b | _ => false
    | .unsafePointer a => match v2 with | .unsafePointer b => a == b | _ => false
/-- Deep equality element by element (array and slice elements, struct fields). -/
def deepValuesEqual (xs ys : GoValues) : Bool :=
  match xs with
  | .nil => match ys with | .nil => true | _ => false
  | .cons a as => match ys with | .cons b bs => deepValueEqual a b && deepValuesEqual as bs | _ => false
/-- The map loop of `deepValueEqual`: every entry of the first map has a deeply equal value
under the same key in the second map. -/
def deepEntriesEqual (es1 es2 : GoEntries) : Bool :=
  match es1 with
  | .nil => true
  | .cons k val1 rest =>
    match mapIndex es2 k with
    | none => false
    | some val2 => deepValueEqual val1 val2 && deepEntriesEqual rest es2
end

/-- Go `reflect.DeepEqual(x, y)` on two interface values (`none` is the nil interface). -/
def DeepEqual (x y : Option GoValue) : Bool :=
  match x, y with
  | none, none => true
  | some v1, some v2 => if v1.Type ≠ v2.Type then false else deepValueEqual v1 v2
  | _, _ => false

/-! ## `Empty` -/

/-- The function `Empty`; `val` is the interface value passed in, `none` being `nil`. -/
def Empty (val : Option GoValue) : Except Panic Bool :=
  match val with
  | none => .ok true
  | some v =>
    match v.Kind with
    | .String | .Array => do
      let n ← v.Len
      pure (n == 0)
    | .Map | .Slice => do
      let n ← v.Len
      if n == 0 then pure true else v.IsNil
    | .Bool => do
      let b ← v.Bool
      pure (!b)
    | .Int | .Int8 | .Int16 | .Int32 | .Int64 => do
      let n ← v.Int
      pure (n == 0)
    | .Uint | .Uint8 | .Uint16 | .Uint32 | .Uint64 | .Uintptr => do
      let n ← v.Uint
      pure (n == 0)
    | .Float32 | .Float64 => do
      let f ← v.Float
      pure (f.eq GoFloat.zero)
    | .Interface | .Ptr => v.IsNil
    | _ => .ok (DeepEqual (some v) (some (Zero v.Type)))


/-! ## The file system and package `os` -/

/-- What a path can name. -/
inductive Node where
  | file
  | dir
  deriving DecidableEq, Repr

/-- A path as the caller writes it: the components between the separators. The empty list is
the empty string; an empty component is a leading, repeated or trailing separator; `.` and
`..` are the directory itself and its parent. Resolution starts at one base directory, which
is both the root and the working directory of the process. -/
abbrev Path := List String

/-- An explicit file-system state: the nodes that exist, each under its resolved path, the
directories the process may not search (`denied`) and the directories in which it may not
create entries (`readOnly`). -/
structure FS where
  nodes : List (Path × Node)
  denied : List Path
  readOnly : List Path
  deriving DecidableEq, Repr

/-- The node at a resolved path; the base directory is always a directory. -/
def FS.node (fs : FS) (p : Path) : Option Node :=
  if p = [] then some .dir else fs.nodes.lookup p

/-- Path resolution: `cur` is the resolved path reached so far, the list is still to be
walked. Each step needs a directory at `cur`; looking up a name in it (also `.` and `..`)
needs the permission to search it. -/
def walk (fs : FS) : Path → List String → Except GoError Path
  | cur, [] => .ok cur
  | cur, c :: rest =>
    match fs.node cur with
    | none => .error .ErrNotExist
    | some .file => .error .ErrNotDir
    | some .dir =>
      if c = "" then walk fs cur rest
      else if cur ∈ fs.denied then .error .ErrPermission
      else if c = "." then walk fs cur rest
      else if c = ".." then walk fs cur.dropLast rest
      else walk fs (cur ++ [c]) rest

/-- Go `os.Stat(name)`; the empty string names nothing. -/
def Stat (fs : FS) (name : Path) : Except GoError Node :=
  if name = [] then .error .ErrNotExist
  else
    match walk fs [] name with
    | .error e => .error e
    | .ok p =>
      match fs.node p with
      | some n => .ok n
      | none => .error .ErrNotExist

/-- The `error` result of a call returning `(value, error)`. -/
def errOf {α : Type} : Except GoError α → Option GoError
  | .ok _ => none
  | .error e => some e

/-- Go `os.IsNotExist(err)`. -/
def IsNotExist (err : Option GoError) : Bool :=
  err == some .ErrNotExist

/-- Go `os.IsPermission(err)`. -/
def IsPermission (err : Option GoError) : Bool :=
  err == some .ErrPermission

/-- Go `os.Mkdir(name, perm)`: creates one directory. Trailing separators are ignored; the
parent is resolved and must be a directory that may be searched; the last component must be a
new name (`.` and `..` always exist); the parent must allow the creation of entries. -/
def Mkdir (fs : FS) (name : Path) : FS × Option GoError :=
  if name = [] then (fs, some .ErrNotExist)
  else
    match name.reverse.dropWhile (fun c => c == "") with
    | [] => (fs, some .ErrExist)
    | last :: initRev =>
      match walk fs [] initRev.reverse with
      | .error e => (fs, some e)
      | .ok parent =>
        match fs.node parent with
        | none => (fs, some .ErrNotExist)
        | some .file => (fs, some .ErrNotDir)
        | some .dir =>
          if parent ∈ fs.denied then (fs, some .ErrPermission)
          else if last = "." ∨ last = ".." then (fs, some .ErrExist)
          else
            match fs.node (parent ++ [last]) with
            | some _ => (fs, some .ErrExist)
            | none =>
              if parent ∈ fs.readOnly then (fs, some .ErrPermission)
              else ({ fs with nodes := (parent ++ [last], .dir) :: fs.nodes }, none)

/-- The parent that `os.MkdirAll` extracts from a path: the trailing separators are removed,
then the last element; what is left of the path is the parent. -/
def parentOf (path : Path) : Path :=
  ((path.reverse.dropWhile (fun c => c == "")).drop 1).reverse

/-- Go `os.MkdirAll`: the fast path on `Stat`, then the parent if there is one, then `Mkdir`
and the second look when `Mkdir` fails. The recursion on the parent is bounded by `fuel`. -/
def mkdirAllFuel : Nat → FS → Path → FS × Option GoError
  | 0, fs, _ => (fs, some (.other 0))
  | fuel + 1, fs, path =>
    match Stat fs path with
    | .ok .dir => (fs, none)
    | .ok .file => (fs, some .ErrNotDir)
    | .error _ =>
      match (if parentOf path = [] then (fs, none) else mkdirAllFuel fuel fs (parentOf path)) with
      | (fs1, some e) => (fs1, some e)
      | (fs1, none) =>
        match Mkdir fs1 path with
        | (fs2, none) => (fs2, none)
        | (fs2, some e) =>
          match Stat fs2 path with
          | .ok .dir => (fs2, none)
          | _ => (fs2, some e)

/-- Go `os.MkdirAll(path, perm)`: every parent is shorter than its path, so the length of the
path bounds the recursion. -/
def MkdirAll (fs : FS) (path : Path) : FS × Option GoError :=
  mkdirAllFuel (path.length + 1) fs path

/-! ## `CheckExist`, `CheckPermission`, `IsNotExistMkDir`, `MkDir` -/

/-- The function `CheckExist`. -/
def CheckExist (fs : FS) (src : Path) : Bool :=
  IsNotExist (errOf (Stat fs src))

/-- The function `CheckPermission`. -/
def CheckPermission (fs : FS) (src : Path) : Bool :=
  IsPermission (errOf (Stat fs src))

/-- The function `MkDir`. -/
def MkDir (fs : FS) (src : Path) : FS × Option GoError :=
  match MkdirAll fs src with
  | (fs1, some err) => (fs1, some err)
  | (fs1, none) => (fs1, none)

/-- A call of `IsNotExistMkDir`: the state it leaves, the error it returns and the calls of
`MkDir` it made. -/
structure MkDirRun where
  fs : FS
  err : Option GoError
  mkDirCalls : List Path
  deriving DecidableEq, Repr

/-- The function `IsNotExistMkDir`. -/
def IsNotExistMkDir (fs : FS) (src : Path) : MkDirRun :=
  let exist := !CheckExist fs src
  if exist == false then
    match MkDir fs src with
    | (fs1, some err) => { fs := fs1, err := some err, mkDirCalls := [src] }
    | (fs1, none) => { fs := fs1, err := none, mkDirCalls := [src] }
  else { fs := fs, err := none, mkDirCalls := [] }

/-! ## `HttpGet` -/

/-- An HTTP response as `HttpGet` uses it: the status code and the outcome of
`io.ReadAll(resp.Body)`. -/
structure Response where
  StatusCode : Nat
  readAll : List Nat × Option GoError
  deriving DecidableEq, Repr

/-- The outcomes of the library calls of `HttpGet`, each a Go pair `(value, err)`. -/
structure HttpEnv where
  urlParse : String → String × Option GoError
  newRequest : String → String → String × Option GoError
  clientDo : String → String → Response × Option GoError

/-- Go `http.StatusTooManyRequests`. -/
def StatusTooManyRequests : Nat := 429

/-- The function `HttpGet`: the body and the error it returns (logging left out). Each
`return []byte{}, err` returns the current value of the variable `err`. -/
def HttpGet (env : HttpEnv) (targetURL proxyURL : String) : List Nat × Option GoError :=
  match env.urlParse proxyURL with
  | (proxyURLParsed, err) =>
    if err ≠ none then ([], err)
    else
      match env.newRequest "GET" targetURL with
      | (req, err) =>
        if err ≠ none then ([], err)
        else
          match env.clientDo proxyURLParsed req with
          | (resp, err) =>
            if err ≠ none then ([], err)
            else if resp.StatusCode = StatusTooManyRequests then ([], err)
            else
              match resp.readAll with
              | (body, err) =>
                if err ≠ none then ([], err)
                else (body, none)

end helpers

namespace file

open helpers

/-- The function `Exists` of package `file`. -/
def Exists (fs : FS) (fileToCheck : Path) : Bool :=
  if IsNotExist (errOf (Stat fs fileToCheck)) then false else true

end file

/-! # Properties -/

namespace helpers

/-! ## Auxiliary facts -/

theorem mapM_ok_of_forall {α β : Type} (P : β → Prop) (f : α → Except Panic β) :
    ∀ xs : List α, (∀ x ∈ xs, ∃ y, f x = .ok y ∧ P y) →
      ∃ ys, xs.mapM f = .ok ys ∧ ys.length = xs.length ∧ ∀ y ∈ ys, P y := by
  intro xs
  induction xs with
  | nil => intro _; exact ⟨[], by rw [List.mapM_nil]; rfl, rfl, by simp⟩
  | cons x xs ih =>
    intro h
    obtain ⟨y, hy, hPy⟩ := h x (by simp)
    obtain ⟨ys, hys, hlen, hP⟩ := ih (fun z hz => h z (by simp [hz]))
    refine ⟨y :: ys, ?_, by simp [hlen], ?_⟩
    · rw [List.mapM_cons, hy, hys]; rfl
    · intro c hc
      rcases List.mem_cons.mp hc with rfl | hc
      · exact hPy
      · exact hP c hc

theorem index_table_digit (x : Nat) :
    ∃ y, index table (x % table.length) = .ok y ∧ isDigit y := by
  have h : x % 10 < 10 := Nat.mod_lt _ (by decide)
  have : table.length = 10 := rfl
  rw [this]
  interval_cases (x % 10) <;> exact ⟨_, rfl, by decide⟩

theorem index_letters_letter (i : Nat) (h : i < 52) :
    ∃ y, index letters i = .ok y ∧ isLetter y := by
  interval_cases i <;> exact ⟨_, rfl, by decide⟩

/-- Invariant of the read loop: the buffer keeps its length, the count stays within the buffer,
and the loop reaches `m` bytes exactly when the source can supply the missing ones. -/
theorem readAtLeastLoop_spec (m : Nat) :
    ∀ (rd : Reader) (buf : List Nat) (n : Nat), n ≤ buf.length → m ≤ buf.length →
      (readAtLeastLoop m rd buf n).2.2.length = buf.length ∧
      (readAtLeastLoop m rd buf n).1 ≤ buf.length ∧
      (m ≤ (readAtLeastLoop m rd buf n).1 ↔ m ≤ n + available rd) := by
  intro rd
  induction rd with
  | nil =>
    intro buf n hn hmin
    unfold readAtLeastLoop
    by_cases h : n < m
    · simp [h, available]; omega
    · simp [h, available]; omega
  | cons s rest ih =>
    intro buf n hn hmin
    unfold readAtLeastLoop
    by_cases h : n < m
    · simp only [h, if_true]
      have hchunk : ((s.data.take (buf.length - n)).map (· % 256)).length
          = min (buf.length - n) s.data.length := by
        rw [List.length_map, List.length_take]
      generalize ((s.data.take (buf.length - n)).map (· % 256)) = chunk at hchunk ⊢
      have hle : n + chunk.length ≤ buf.length := by
        omega
      have hlen : (buf.take n ++ chunk ++ buf.drop (n + chunk.length)).length = buf.length := by
        rw [List.length_append, List.length_append, List.length_take, List.length_drop]; omega
      have hcases : chunk.length = s.data.length ∨
          (chunk.length = buf.length - n ∧ buf.length - n ≤ s.data.length) := by
        omega
      cases hs : s.err with
      | none =>
        simp only [available, hs]
        obtain ⟨i1, i2, i3⟩ := ih (buf.take n ++ chunk ++ buf.drop (n + chunk.length))
          (n + chunk.length) (by rw [hlen]; exact hle) (by rw [hlen]; exact hmin)
        refine ⟨by rw [i1, hlen], by rw [hlen] at i2; exact i2, ?_⟩
        rw [i3]
        rcases hcases with hc | ⟨hc, hc2⟩ <;> omega
      | some e =>
        simp only [available, hs]
        refine ⟨hlen, hle, ?_⟩
        rcases hcases with hc | ⟨hc, hc2⟩ <;> omega
    · simp only [h, if_false]
      exact ⟨trivial, hn, by omega⟩

/-- The call `io.ReadAtLeast` on a buffer of `m` bytes with `min = m`: it fills the buffer exactly when
the source can supply `m` bytes. -/
theorem ReadAtLeast_spec (rd : Reader) (buf : List Nat) (m : Nat) (hm : buf.length = m) :
    (ReadAtLeast rd buf m).2.2.length = m ∧
    ((ReadAtLeast rd buf m).1 = m ↔ m ≤ available rd) := by
  subst hm
  obtain ⟨h1, h2, h3⟩ := readAtLeastLoop_spec buf.length rd buf 0 (Nat.zero_le _) (Nat.le_refl _)
  unfold ReadAtLeast
  simp only [Nat.lt_irrefl, if_false]
  rcases hloop : readAtLeastLoop buf.length rd buf 0 with ⟨n, err, buf1⟩
  rw [hloop] at h1 h2 h3
  simp only at h1 h2 h3
  simp only [Nat.zero_add] at h3
  by_cases hge : n ≥ buf.length
  · simp only [hge, if_true]
    exact ⟨h1, ⟨fun _ => h3.mp hge, fun _ => Nat.le_antisymm h2 hge⟩⟩
  · simp only [hge, if_false]
    have hne : n ≠ buf.length := by omega
    have hna : ¬ buf.length ≤ available rd := fun h => hge (h3.mpr h)
    split_ifs <;> exact ⟨h1, ⟨fun h => absurd h hne, fun h => absurd h hna⟩⟩

/-- Within the limits of `make`, when `ReadAtLeast` reports `length` bytes, `RandomNumber`
returns `length` digits. -/
theorem RandomNumber_ok_of_read (maxAlloc : Nat) (rd : Reader) (length : Int) (h0 : 0 ≤ length)
    (hmax : length ≤ maxAlloc)
    (hn : (ReadAtLeast rd (List.replicate length.toNat 0) length.toNat).1 = length.toNat) :
    ∃ s, RandomNumber maxAlloc rd length = .ok s ∧ (s.length : Int) = length
      ∧ ∀ c ∈ s, isDigit c := by
  have hlen := (ReadAtLeast_spec rd (List.replicate length.toNat 0) length.toNat
    (List.length_replicate _ _)).1
  unfold RandomNumber makeBytes
  rw [if_neg (by omega)]
  simp only [bind, Except.bind]
  rcases hr : ReadAtLeast rd (List.replicate length.toNat 0) length.toNat with ⟨n, err, b⟩
  rw [hr] at hn hlen
  simp only at hn hlen
  have hnl : (n : Int) = length := by rw [hn]; exact Int.toNat_of_nonneg h0
  simp only [hnl, ne_eq, not_true_eq_false, if_false]
  obtain ⟨ys, hys, hl, hP⟩ := mapM_ok_of_forall isDigit
    (fun x => index table (x % table.length)) b (fun x _ => index_table_digit x)
  refine ⟨ys, hys, ?_, hP⟩
  rw [hl, hlen]; exact Int.toNat_of_nonneg h0

/-- Within the limits of `make`, when `ReadAtLeast` reports another count than `length`,
`RandomNumber` panics with the error of `ReadAtLeast`. -/
theorem RandomNumber_panic_of_read (maxAlloc : Nat) (rd : Reader) (length : Int)
    (h0 : 0 ≤ length) (hmax : length ≤ maxAlloc)
    (hn : (ReadAtLeast rd (List.replicate length.toNat 0) length.toNat).1 ≠ length.toNat) :
    RandomNumber maxAlloc rd length
      = .error (.value (ReadAtLeast rd (List.replicate length.toNat 0) length.toNat).2.1) := by
  unfold RandomNumber makeBytes
  rw [if_neg (by omega)]
  simp only [bind, Except.bind]
  rcases hr : ReadAtLeast rd (List.replicate length.toNat 0) length.toNat with ⟨n, err, b⟩
  rw [hr] at hn
  simp only at hn
  have hnl : (n : Int) ≠ length := by
    intro h; apply hn; rw [← h]; rfl
  simp only [hnl, ne_eq, not_false_eq_true, if_true]

/-- Outside the limits of `make`, `RandomNumber` panics in `make`, whatever the source. -/
theorem RandomNumber_panic_of_make (maxAlloc : Nat) (rd : Reader) (length : Int)
    (h : length < 0 ∨ (maxAlloc : Int) < length) :
    RandomNumber maxAlloc rd length = .error .makesliceLen := by
  unfold RandomNumber makeBytes
  rw [if_pos h]
  rfl

/-- A source whose single `Read` has `n` zero bytes ready can supply `n` bytes. -/
theorem available_single (n : Nat) : available [⟨List.replicate n 0, none⟩] = n := by
  simp only [available, List.length_replicate, Nat.add_zero]

/-! ## Random identifier generation -/

/-- C1 as stated fails above the allocation limit of `make`: on amd64 (limit `2 ^ 48`), for
the length `2 ^ 63 - 1` and a source that can deliver that many bytes, `RandomNumber` panics
in `make` and returns no string. -/
theorem RandomNumber_MaxInt64 :
    (0 : Int) ≤ 2 ^ 63 - 1
    ∧ ((2 : Int) ^ 63 - 1).toNat ≤ available [⟨List.replicate (2 ^ 63 - 1) 0, none⟩]
    ∧ RandomNumber (2 ^ 48) [⟨List.replicate (2 ^ 63 - 1) 0, none⟩] (2 ^ 63 - 1)
        = .error .makesliceLen := by
  refine ⟨by norm_num, ?_, RandomNumber_panic_of_make _ _ _ (Or.inr (by norm_num))⟩
  rw [available_single]
  decide

/-- C1, amended: for every length from 0 up to the allocation limit of `make` and every
random source that delivers `length` bytes, `RandomNumber(length)` returns a string of exactly
`length` characters, each one of the ten characters `0` to `9`; and `RandomNumber(0)` returns
the empty string. -/
theorem RandomNumber_digits (maxAlloc : Nat) (rd : Reader) (length : Int) (h0 : 0 ≤ length)
    (hmax : length ≤ maxAlloc) (hsrc : length.toNat ≤ available rd) :
    (∃ s, RandomNumber maxAlloc rd length = .ok s ∧ (s.length : Int) = length
      ∧ ∀ c ∈ s, isDigit c)
    ∧ RandomNumber maxAlloc rd 0 = .ok [] := by
  have hspec := fun (l : Int) => (ReadAtLeast_spec rd (List.replicate l.toNat 0) l.toNat
    (List.length_replicate _ _)).2
  refine ⟨RandomNumber_ok_of_read maxAlloc rd length h0 hmax ((hspec length).mpr hsrc), ?_⟩
  obtain ⟨s, hs, hl, _⟩ := RandomNumber_ok_of_read maxAlloc rd 0 (le_refl 0)
    (Int.ofNat_nonneg _) ((hspec 0).mpr (Nat.zero_le _))
  have : s = [] := List.length_eq_zero.mp (by exact_mod_cast hl)
  rw [hs, this]

/-- Witness of C1 amended: a source delivering six bytes, asked for five digits. -/
theorem RandomNumber_digits_witness :
    (∃ s, RandomNumber (2 ^ 48) [⟨[0, 1, 2, 255, 10, 9], none⟩] 5 = .ok s
      ∧ (s.length : Int) = 5 ∧ ∀ c ∈ s, isDigit c)
    ∧ RandomNumber (2 ^ 48) [⟨[0, 1, 2, 255, 10, 9], none⟩] 0 = .ok [] :=
  RandomNumber_digits (2 ^ 48) [⟨[0, 1, 2, 255, 10, 9], none⟩] 5 (by decide) (by decide)
    (by decide)

/-- C2 as stated fails above the allocation limit of `make`: on amd64 (limit `2 ^ 48`), for
the length `2 ^ 63 - 1` and a source whose `Intn` results are all 0, `RandomString` panics in
`make` and returns no string. -/
theorem RandomString_MaxInt64 :
    (0 : Int) ≤ 2 ^ 63 - 1
    ∧ (∀ i : Nat, (fun _ : Nat => 0) i < 52)
    ∧ RandomString (2 ^ 48) (fun _ => 0) (2 ^ 63 - 1) = .error .makesliceLen := by
  refine ⟨by norm_num, fun _ => Nat.zero_lt_succ 51, ?_⟩
  unfold RandomString makeBytes
  rw [if_pos (Or.inr (by norm_num))]
  rfl

/-- C2, amended: for every length from 0 up to the allocation limit of `make` and every
pseudo-random source whose `Intn(52)` results are in 0..51, `RandomString(length)` returns a
string of exactly `length` characters, each in `[a-zA-Z]`; and `RandomString(0)` returns the
empty string. -/
theorem RandomString_letters (maxAlloc : Nat) (intn : Nat → Nat) (length : Int)
    (h0 : 0 ≤ length) (hmax : length ≤ maxAlloc)
    (hsrc : ∀ i, i < length.toNat → intn i < 52) :
    (∃ s, RandomString maxAlloc intn length = .ok s ∧ (s.length : Int) = length
      ∧ ∀ c ∈ s, isLetter c)
    ∧ RandomString maxAlloc intn 0 = .ok [] := by
  constructor
  · unfold RandomString makeBytes
    rw [if_neg (by omega)]
    simp only [bind, Except.bind, List.length_replicate]
    obtain ⟨ys, hys, hl, hP⟩ := mapM_ok_of_forall isLetter (fun i => index letters (intn i))
      (List.range length.toNat)
      (fun i hi => index_letters_letter (intn i) (hsrc i (List.mem_range.mp hi)))
    refine ⟨ys, hys, ?_, hP⟩
    rw [hl, List.length_range]; exact Int.toNat_of_nonneg h0
  · unfold RandomString makeBytes
    rw [if_neg (by omega)]
    rfl

/-- Witness of C2 amended: the source `i ↦ 7 i mod 52`, asked for six letters. -/
theorem RandomString_letters_witness :
    (∃ s, RandomString (2 ^ 48) (fun i => i * 7 % 52) 6 = .ok s ∧ (s.length : Int) = 6
      ∧ ∀ c ∈ s, isLetter c)
    ∧ RandomString (2 ^ 48) (fun i => i * 7 % 52) 0 = .ok [] :=
  RandomString_letters (2 ^ 48) (fun i => i * 7 % 52) 6 (by decide) (by decide)
    (fun i _ => Nat.mod_lt _ (by decide))

/-- C8 as stated fails outside the limits of `make`: for the length -1, and on amd64 (limit
`2 ^ 48`) for the length `2 ^ 63 - 1`, `RandomNumber` panics in `make` although the source is
not short of `length` bytes. -/
theorem RandomNumber_panics_in_make :
    RandomNumber (2 ^ 48) [⟨[1, 2, 3], none⟩] (-1) = .error .makesliceLen
    ∧ ¬ ((available [⟨[1, 2, 3], none⟩] : Int) < -1)
    ∧ RandomNumber (2 ^ 48) [⟨List.replicate (2 ^ 63 - 1) 0, none⟩] (2 ^ 63 - 1)
        = .error .makesliceLen
    ∧ ¬ ((available [⟨List.replicate (2 ^ 63 - 1) 0, none⟩] : Int) < 2 ^ 63 - 1) := by
  refine ⟨RandomNumber_panic_of_make _ _ _ (Or.inl (by norm_num)), by decide,
    RandomNumber_panic_of_make _ _ _ (Or.inr (by norm_num)), ?_⟩
  rw [available_single]
  norm_num

/-- C8, amended: for a length from 0 up to the allocation limit of `make`, `RandomNumber`
panics exactly when the number of bytes read differs from `length`, which is exactly when the
random source cannot supply `length` bytes; when the source supplies them it returns
normally, and for length 0 it always does. For a negative length and for a length above the
allocation limit it panics in `make`, whatever the source supplies. -/
theorem RandomNumber_panics_iff (maxAlloc : Nat) (rd : Reader) (length : Int)
    (h0 : 0 ≤ length) (hmax : length ≤ maxAlloc)
    (outside : Int) (hout : outside < 0 ∨ (maxAlloc : Int) < outside) :
    ((∃ p, RandomNumber maxAlloc rd length = .error p) ↔
      (ReadAtLeast rd (List.replicate length.toNat 0) length.toNat).1 ≠ length.toNat)
    ∧ ((ReadAtLeast rd (List.replicate length.toNat 0) length.toNat).1 ≠ length.toNat ↔
      (available rd : Int) < length)
    ∧ (length ≤ (available rd : Int) → ∃ s, RandomNumber maxAlloc rd length = .ok s)
    ∧ (∃ s, RandomNumber maxAlloc rd 0 = .ok s)
    ∧ RandomNumber maxAlloc rd outside = .error .makesliceLen := by
  have hspec := fun (l : Int) => (ReadAtLeast_spec rd (List.replicate l.toNat 0) l.toNat
    (List.length_replicate _ _)).2
  refine ⟨⟨?_, ?_⟩, ?_, ?_, ?_, RandomNumber_panic_of_make maxAlloc rd outside hout⟩
  · rintro ⟨p, hp⟩ hn
    obtain ⟨s, hs, _⟩ := RandomNumber_ok_of_read maxAlloc rd length h0 hmax hn
    rw [hs] at hp
    cases hp
  · intro hn
    exact ⟨_, RandomNumber_panic_of_read maxAlloc rd length h0 hmax hn⟩
  · rw [ne_eq, hspec length]; omega
  · intro h
    obtain ⟨s, hs, _⟩ := RandomNumber_ok_of_read maxAlloc rd length h0 hmax
      ((hspec length).mpr (by omega))
    exact ⟨s, hs⟩
  · obtain ⟨s, hs, _⟩ := RandomNumber_ok_of_read maxAlloc rd 0 (le_refl 0)
      (Int.ofNat_nonneg _) ((hspec 0).mpr (Nat.zero_le _))
    exact ⟨s, hs⟩

/-- Witness of C8 amended: a source that stops after three bytes, asked for five digits, and
the length -1. -/
theorem RandomNumber_panics_iff_witness :
    ((∃ p, RandomNumber (2 ^ 48) [⟨[0, 1], none⟩, ⟨[7], some .EOF⟩] 5 = .error p) ↔
      (ReadAtLeast [⟨[0, 1], none⟩, ⟨[7], some .EOF⟩]
        (List.replicate (5 : Int).toNat 0) (5 : Int).toNat).1 ≠ (5 : Int).toNat)
    ∧ ((ReadAtLeast [⟨[0, 1], none⟩, ⟨[7], some .EOF⟩]
        (List.replicate (5 : Int).toNat 0) (5 : Int).toNat).1 ≠ (5 : Int).toNat ↔
      (available [⟨[0, 1], none⟩, ⟨[7], some .EOF⟩] : Int) < 5)
    ∧ ((5 : Int) ≤ (available [⟨[0, 1], none⟩, ⟨[7], some .EOF⟩] : Int) →
      ∃ s, RandomNumber (2 ^ 48) [⟨[0, 1], none⟩, ⟨[7], some .EOF⟩] 5 = .ok s)
    ∧ (∃ s, RandomNumber (2 ^ 48) [⟨[0, 1], none⟩, ⟨[7], some .EOF⟩] 0 = .ok s)
    ∧ RandomNumber (2 ^ 48) [⟨[0, 1], none⟩, ⟨[7], some .EOF⟩] (-1) = .error .makesliceLen :=
  RandomNumber_panics_iff (2 ^ 48) [⟨[0, 1], none⟩, ⟨[7], some .EOF⟩] 5 (by decide)
    (by decide) (-1) (Or.inl (by decide))

/-! ## Auxiliary facts about zero values -/

theorem GoValues.length_replicate (v : GoValue) :
    ∀ n : Nat, (GoValues.replicate n v).length = n
  | 0 => rfl
  | n + 1 => by rw [GoValues.replicate, GoValues.length, GoValues.length_replicate v n]

mutual
theorem Type_Zero : ∀ t : GoType, (Zero t).Type = t
  | .bool => rfl
  | .int _ => rfl
  | .uint _ => rfl
  | .float _ => rfl
  | .complex _ => rfl
  | .string => rfl
  | .array n elem => by rw [Zero, GoValue.Type, GoValues.length_replicate]
  | .slice _ => rfl
  | .map _ _ => rfl
  | .ptr _ => rfl
  | .chan _ => rfl
  | .func _ => rfl
  | .iface => rfl
  | .struct fields => by rw [Zero, GoValue.Type, Types_Zeros fields]
  | .unsafePointer => rfl
theorem Types_Zeros : ∀ ts : GoTypes, (Zeros ts).Types = ts
  | .nil => rfl
  | .cons t ts => by rw [Zeros, GoValues.Types, Type_Zero t, Types_Zeros ts]
end

theorem GoFloat.eq_zero_zero : GoFloat.zero.eq GoFloat.zero = true := by decide

theorem deepValuesEqual_replicate (v : GoValue) (h : deepValueEqual v v = true) :
    ∀ n : Nat, deepValuesEqual (GoValues.replicate n v) (GoValues.replicate n v) = true
  | 0 => by rw [GoValues.replicate, deepValuesEqual]
  | n + 1 => by
    rw [GoValues.replicate, deepValuesEqual]
    simp only [h, deepValuesEqual_replicate v h n, Bool.and_self]

theorem deepValueEqual_unfold (v : GoValue) (b : Bool) :
    (if v.Type ≠ v.Type then false else b) = b := by
  simp

mutual
theorem deepValueEqual_Zero : ∀ t : GoType, deepValueEqual (Zero t) (Zero t) = true
  | .bool => by decide
  | .int _ => by rw [Zero, deepValueEqual, deepValueEqual_unfold]; simp only [beq_self_eq_true]
  | .uint _ => by rw [Zero, deepValueEqual, deepValueEqual_unfold]; simp only [beq_self_eq_true]
  | .float _ => by
    rw [Zero, deepValueEqual, deepValueEqual_unfold]; simp only [GoFloat.eq_zero_zero]
  | .complex _ => by
    rw [Zero, deepValueEqual, deepValueEqual_unfold]
    simp only [GoFloat.eq_zero_zero, Bool.and_self]
  | .string => by decide
  | .array n elem => by
    rw [Zero, deepValueEqual, deepValueEqual_unfold]
    simp only [deepValuesEqual_replicate _ (deepValueEqual_Zero elem) n]
  | .slice _ => by rw [Zero, deepValueEqual, deepValueEqual_unfold]
  | .map _ _ => by rw [Zero, deepValueEqual, deepValueEqual_unfold]
  | .ptr _ => by rw [Zero, deepValueEqual, deepValueEqual_unfold]
  | .chan _ => by rw [Zero, deepValueEqual, deepValueEqual_unfold]
  | .func _ => by rw [Zero, deepValueEqual, deepValueEqual_unfold]
  | .iface => by decide
  | .struct fields => by
    rw [Zero, deepValueEqual, deepValueEqual_unfold]
    simp only [deepValuesEqual_Zeros fields]
  | .unsafePointer => by decide
theorem deepValuesEqual_Zeros : ∀ ts : GoTypes, deepValuesEqual (Zeros ts) (Zeros ts) = true
  | .nil => by rw [Zeros, deepValuesEqual]
  | .cons t ts => by
    rw [Zeros, deepValuesEqual]
    simp only [deepValueEqual_Zero t, deepValuesEqual_Zeros ts, Bool.and_self]
end


/-! ## The emptiness predicate -/

theorem GoFloat.eq_zero_iff (f : GoFloat) : f.eq GoFloat.zero = true ↔ f.value = some 0 := by
  cases f with
  | finite s m e =>
    have h2 : (2 : Int) ^ (e - min e 0).toNat ≠ 0 := pow_ne_zero _ (by decide)
    have hq : (2 : ℚ) ^ e ≠ 0 := zpow_ne_zero _ (by norm_num)
    simp only [GoFloat.eq, GoFloat.zero, GoFloat.value, GoFloat.signedMant, beq_iff_eq,
      Option.some.injEq]
    cases s <;> simp [h2, hq]
  | inf s => simp [GoFloat.eq, GoFloat.zero, GoFloat.value]
  | nan => simp [GoFloat.eq, GoFloat.zero, GoFloat.value]

theorem beq_zero_eq_decide (n : Nat) : (n == 0) = decide (n = 0) := by
  cases n <;> rfl

theorem Empty_slice (e : GoType) (b : Nat) (xs : GoValues) :
    Empty (some (.slice e b xs)) = .ok (decide (xs.length = 0)) := by
  have hE : Empty (some (.slice e b xs))
      = if (xs.length == 0) = true then .ok true else .ok false := rfl
  rw [hE]
  cases xs.length <;> rfl

theorem Empty_map (k e : GoType) (a : Nat) (es : GoEntries) :
    Empty (some (.map k e a es)) = .ok (decide (es.length = 0)) := by
  have hE : Empty (some (.map k e a es))
      = if (es.length == 0) = true then .ok true else .ok false := rfl
  rw [hE]
  cases es.length <;> rfl

/-- C3: for every value that is a string, an array, a map or a slice, `Empty` is true if and
only if the length of the value is 0; a nil slice and a nil map have length 0 and are empty;
and an array of `n > 0` zero values is not empty although it deep-equals the zero value of its
type. -/
theorem Empty_iff_len_zero (v : GoValue)
    (hk : v.Kind = .String ∨ v.Kind = .Array ∨ v.Kind = .Map ∨ v.Kind = .Slice)
    (n : Nat) (elem : GoType) (hn : 0 < n) (kt et : GoType) :
    (∃ len, v.Len = .ok len ∧ Empty (some v) = .ok (decide (len = 0)))
    ∧ (GoValue.Len (.sliceNil et) = .ok 0 ∧ Empty (some (.sliceNil et)) = .ok true)
    ∧ (GoValue.Len (.mapNil kt et) = .ok 0 ∧ Empty (some (.mapNil kt et)) = .ok true)
    ∧ Empty (some (.array elem (GoValues.replicate n (Zero elem)))) = .ok false
    ∧ DeepEqual (some (.array elem (GoValues.replicate n (Zero elem))))
        (some (Zero (GoValue.array elem (GoValues.replicate n (Zero elem))).Type)) = true := by
  refine ⟨?_, ⟨rfl, rfl⟩, ⟨rfl, rfl⟩, ?_, ?_⟩
  · cases v with
    | string s => exact ⟨s.length, rfl, by rw [← beq_zero_eq_decide]; rfl⟩
    | array e xs => exact ⟨xs.length, rfl, by rw [← beq_zero_eq_decide]; rfl⟩
    | sliceNil e => exact ⟨0, rfl, rfl⟩
    | slice e b xs => exact ⟨xs.length, rfl, Empty_slice e b xs⟩
    | mapNil k e => exact ⟨0, rfl, rfl⟩
    | map k e a es => exact ⟨es.length, rfl, Empty_map k e a es⟩
    | int k _ => cases k <;> simp [GoValue.Kind, GoValue.Type, GoType.Kind] at hk
    | uint k _ => cases k <;> simp [GoValue.Kind, GoValue.Type, GoType.Kind] at hk
    | float k _ => cases k <;> simp [GoValue.Kind, GoValue.Type, GoType.Kind] at hk
    | complex k _ _ => cases k <;> simp [GoValue.Kind, GoValue.Type, GoType.Kind] at hk
    | _ => simp [GoValue.Kind, GoValue.Type, GoType.Kind] at hk
  · have hlen := GoValues.length_replicate (Zero elem) n
    have hE : Empty (some (.array elem (GoValues.replicate n (Zero elem))))
        = .ok ((GoValues.replicate n (Zero elem)).length == 0) := rfl
    rw [hE, hlen]
    cases n with
    | zero => exact absurd hn (Nat.lt_irrefl 0)
    | succ m => rfl
  · have h := deepValueEqual_Zero (.array n elem)
    rw [Zero] at h
    rw [GoValue.Type, GoValues.length_replicate, Zero, DeepEqual]
    simp only [ne_eq, not_true_eq_false, if_false, h]

/-- Witness of C3: a slice holding one integer, and the array `[2]int{0, 0}`. -/
theorem Empty_iff_len_zero_witness :
    (∃ len, GoValue.Len (.slice (.int .Int) 4096 (.cons (.int .Int 1) .nil)) = .ok len
      ∧ Empty (some (.slice (.int .Int) 4096 (.cons (.int .Int 1) .nil)))
          = .ok (decide (len = 0)))
    ∧ (GoValue.Len (.sliceNil (.int .Int)) = .ok 0
      ∧ Empty (some (.sliceNil (.int .Int))) = .ok true)
    ∧ (GoValue.Len (.mapNil .string (.int .Int)) = .ok 0
      ∧ Empty (some (.mapNil .string (.int .Int))) = .ok true)
    ∧ Empty (some (.array (.int .Int) (GoValues.replicate 2 (Zero (.int .Int))))) = .ok false
    ∧ DeepEqual (some (.array (.int .Int) (GoValues.replicate 2 (Zero (.int .Int)))))
        (some (Zero (GoValue.array (.int .Int)
          (GoValues.replicate 2 (Zero (.int .Int)))).Type)) = true :=
  Empty_iff_len_zero (.slice (.int .Int) 4096 (.cons (.int .Int 1) .nil)) (by decide)
    2 (.int .Int) (by decide) .string (.int .Int)

/-- C4: for every value of a numeric type (signed integer of any width, unsigned integer of
any width including `uintptr`, floating point), `Empty` is true if and only if the numeric
value equals zero. -/
theorem Empty_numeric_iff_zero (ki : IntKind) (i : Int) (ku : UintKind) (u : Nat)
    (kf : FloatKind) (f : GoFloat) :
    Empty (some (.int ki i)) = .ok (decide (i = 0))
    ∧ Empty (some (.uint ku u)) = .ok (decide (u = 0))
    ∧ (Empty (some (.float kf f)) = .ok true ↔ f.value = some 0)
    ∧ (Empty (some (.float kf f)) = .ok false ↔ f.value ≠ some 0) := by
  have hf : Empty (some (.float kf f)) = .ok (f.eq GoFloat.zero) := by cases kf <;> rfl
  refine ⟨by cases ki <;> rfl, ?_, ?_, ?_⟩
  · rw [← beq_zero_eq_decide]; cases ku <;> rfl
  · rw [hf, ← GoFloat.eq_zero_iff]
    constructor
    · intro h; injection h
    · intro h; rw [h]
  · rw [hf, ne_eq, ← GoFloat.eq_zero_iff]
    constructor
    · intro h; injection h with h; rw [h]; exact Bool.false_ne_true
    · intro h; rw [Bool.eq_false_iff.mpr h]

/-- C5: `Empty(nil)` is true, and for every pointer value `Empty` is true if and only if the
pointer itself is nil, whatever it points to. -/
theorem Empty_pointer_iff_nil (v : GoValue) (hk : v.Kind = .Ptr)
    (elem : GoType) (addr : Nat) (target : GoValue) :
    Empty none = .ok true
    ∧ (∃ b, v.IsNil = .ok b ∧ Empty (some v) = .ok b)
    ∧ Empty (some (.ptrNil elem)) = .ok true
    ∧ Empty (some (.ptr elem addr target)) = .ok false := by
  refine ⟨rfl, ?_, rfl, rfl⟩
  cases v with
  | ptrNil e => exact ⟨true, rfl, rfl⟩
  | ptr e a t => exact ⟨false, rfl, rfl⟩
  | int k _ => cases k <;> simp [GoValue.Kind, GoValue.Type, GoType.Kind] at hk
  | uint k _ => cases k <;> simp [GoValue.Kind, GoValue.Type, GoType.Kind] at hk
  | float k _ => cases k <;> simp [GoValue.Kind, GoValue.Type, GoType.Kind] at hk
  | complex k _ _ => cases k <;> simp [GoValue.Kind, GoValue.Type, GoType.Kind] at hk
  | _ => simp [GoValue.Kind, GoValue.Type, GoType.Kind] at hk

/-- Witness of C5: a non-nil pointer to a nil pointer, and a non-nil pointer to the integer
zero. -/
theorem Empty_pointer_iff_nil_witness :
    Empty none = .ok true
    ∧ (∃ b, GoValue.IsNil (.ptr (.ptr (.int .Int)) 4096 (.ptrNil (.int .Int))) = .ok b
      ∧ Empty (some (.ptr (.ptr (.int .Int)) 4096 (.ptrNil (.int .Int)))) = .ok b)
    ∧ Empty (some (.ptrNil (.int .Int))) = .ok true
    ∧ Empty (some (.ptr (.int .Int) 8192 (.int .Int 0))) = .ok false :=
  Empty_pointer_iff_nil (.ptr (.ptr (.int .Int)) 4096 (.ptrNil (.int .Int))) (by decide)
    (.int .Int) 8192 (.int .Int 0)

/-- C6: `Empty` never fails: on every input it returns true or false; and a value whose kind
none of the cases of the switch names (a struct, for example) is empty if and only if it
deep-equals the zero value of its own type. -/
theorem Empty_never_fails (val : Option GoValue) (v : GoValue)
    (hk : v.Kind ∉ [Kind.String, Kind.Array, Kind.Map, Kind.Slice, Kind.Bool,
      Kind.Int, Kind.Int8, Kind.Int16, Kind.Int32, Kind.Int64,
      Kind.Uint, Kind.Uint8, Kind.Uint16, Kind.Uint32, Kind.Uint64, Kind.Uintptr,
      Kind.Float32, Kind.Float64, Kind.Interface, Kind.Ptr]) :
    (∃ b, Empty val = .ok b)
    ∧ Empty (some v) = .ok (DeepEqual (some v) (some (Zero v.Type)))
    ∧ (Empty (some v) = .ok true ↔ DeepEqual (some v) (some (Zero v.Type)) = true) := by
  have hfall : Empty (some v) = .ok (DeepEqual (some v) (some (Zero v.Type))) := by
    cases v with
    | int k _ => cases k <;> simp [GoValue.Kind, GoValue.Type, GoType.Kind] at hk
    | uint k _ => cases k <;> simp [GoValue.Kind, GoValue.Type, GoType.Kind] at hk
    | float k _ => cases k <;> simp [GoValue.Kind, GoValue.Type, GoType.Kind] at hk
    | complex k _ _ => cases k <;> rfl
    | struct fs => rfl
    | chanNil e => rfl
    | chan e a b => rfl
    | funcNil s => rfl
    | func s a => rfl
    | unsafePointer a => rfl
    | _ => simp [GoValue.Kind, GoValue.Type, GoType.Kind] at hk
  refine ⟨?_, hfall, ?_⟩
  · cases val with
    | none => exact ⟨true, rfl⟩
    | some w =>
      cases w with
      | int k _ => cases k <;> exact ⟨_, rfl⟩
      | uint k _ => cases k <;> exact ⟨_, rfl⟩
      | float k _ => cases k <;> exact ⟨_, rfl⟩
      | complex k _ _ => cases k <;> exact ⟨_, rfl⟩
      | slice e b xs => exact ⟨_, Empty_slice e b xs⟩
      | map k e a es => exact ⟨_, Empty_map k e a es⟩
      | _ => exact ⟨_, rfl⟩
  · rw [hfall]
    constructor
    · intro h; injection h
    · intro h; rw [h]

/-- Witness of C6: the struct value `struct{ int; string }{0, ""}`. -/
theorem Empty_never_fails_witness :
    (∃ b, Empty (some (.bool true)) = .ok b)
    ∧ Empty (some (.struct (.cons (.int .Int 0) (.cons (.string []) .nil))))
      = .ok (DeepEqual (some (.struct (.cons (.int .Int 0) (.cons (.string []) .nil))))
          (some (Zero (GoValue.struct (.cons (.int .Int 0) (.cons (.string []) .nil))).Type)))
    ∧ (Empty (some (.struct (.cons (.int .Int 0) (.cons (.string []) .nil)))) = .ok true ↔
        DeepEqual (some (.struct (.cons (.int .Int 0) (.cons (.string []) .nil))))
          (some (Zero (GoValue.struct (.cons (.int .Int 0) (.cons (.string []) .nil))).Type))
          = true) :=
  Empty_never_fails (some (.bool true)) (.struct (.cons (.int .Int 0) (.cons (.string []) .nil)))
    (by decide)

/-! ## Directory helpers -/

/-- The parent that `os.MkdirAll` extracts is shorter than the path. -/
theorem parentOf_length (path : Path) (h : parentOf path ≠ []) :
    (parentOf path).length < path.length := by
  unfold parentOf at h ⊢
  have hle : (path.reverse.dropWhile (fun c => c == "")).length ≤ path.length := by
    have := (List.dropWhile_sublist (fun c => c == "") (l := path.reverse)).length_le
    rwa [List.length_reverse] at this
  cases hd : path.reverse.dropWhile (fun c => c == "") with
  | nil => rw [hd] at h; exact absurd rfl h
  | cons x xs =>
    rw [hd] at hle
    simp only [List.drop_succ_cons, List.drop_zero, List.length_reverse, List.length_cons] at hle ⊢
    omega

/-- Fuel above the length of the path is enough: more fuel does not change the result of
`os.MkdirAll`. -/
theorem mkdirAllFuel_enough :
    ∀ (fuel1 fuel2 : Nat) (fs : FS) (path : Path), path.length < fuel1 → path.length < fuel2 →
      mkdirAllFuel fuel1 fs path = mkdirAllFuel fuel2 fs path := by
  intro fuel1
  induction fuel1 with
  | zero => intro fuel2 fs path h1; exact absurd h1 (Nat.not_lt_zero _)
  | succ n ih =>
    intro fuel2 fs path h1 h2
    cases fuel2 with
    | zero => exact absurd h2 (Nat.not_lt_zero _)
    | succ m =>
      unfold mkdirAllFuel
      by_cases hp : parentOf path = []
      · simp only [hp, if_true]
      · have hlt := parentOf_length path hp
        rw [if_neg hp, if_neg hp, ih m fs (parentOf path) (by omega) (by omega)]

/-- Resolution of a concatenation: resolve the first part, then the second from there. -/
theorem walk_append (fs : FS) (b : List String) :
    ∀ (a : List String) (cur : Path),
      walk fs cur (a ++ b) =
        match walk fs cur a with
        | .ok p => walk fs p b
        | .error e => .error e := by
  intro a
  induction a with
  | nil => intro cur; rfl
  | cons c a ih =>
    intro cur
    rw [List.cons_append]
    simp only [walk]
    cases fs.node cur with
    | none => rfl
    | some n =>
      cases n with
      | file => rfl
      | dir =>
        simp only
        split_ifs <;> first | rfl | exact ih _

/-- Trailing separators leave a directory where it is. -/
theorem walk_separators (fs : FS) (cur : Path) (hcur : fs.node cur = some .dir) :
    ∀ es : List String, (∀ x ∈ es, x = "") → walk fs cur es = .ok cur := by
  intro es
  induction es with
  | nil => intro _; rfl
  | cons c es ih =>
    intro h
    have hc : c = "" := h c (List.mem_cons_self _ _)
    simp only [walk, hcur, hc, if_true]
    exact ih (fun x hx => h x (List.mem_cons_of_mem _ hx))

/-- A path splits into what precedes its last element, the last element, and the trailing
separators. -/
theorem split_last (name : Path) (last : String) (initRev : List String)
    (h : name.reverse.dropWhile (fun c => c == "") = last :: initRev) :
    last ≠ "" ∧ ∃ es : List String, (∀ x ∈ es, x = "") ∧ name = initRev.reverse ++ [last] ++ es := by
  constructor
  · have := List.head?_dropWhile_not (fun c => c == "") name.reverse
    rw [h] at this
    simpa using this
  · refine ⟨(name.reverse.takeWhile (fun c => c == "")).reverse, ?_, ?_⟩
    · intro x hx
      have := List.mem_takeWhile_imp (List.mem_reverse.mp hx)
      simpa using this
    · have := List.takeWhile_append_dropWhile (fun c => c == "") name.reverse
      rw [h] at this
      have h2 := congrArg List.reverse this
      rw [List.reverse_reverse, List.reverse_append, List.reverse_cons] at h2
      exact h2.symm

/-- Creating a directory under a new name keeps every resolution that succeeded. -/
theorem walk_create (fs : FS) (key : Path) (hkey : fs.node key = none) :
    ∀ (rest : List String) (cur p : Path), walk fs cur rest = .ok p →
      walk { fs with nodes := (key, .dir) :: fs.nodes } cur rest = .ok p := by
  intro rest
  induction rest with
  | nil => intro cur p h; exact h
  | cons c rest ih =>
    intro cur p h
    simp only [walk] at h ⊢
    cases hcur : fs.node cur with
    | none => rw [hcur] at h; cases h
    | some n =>
      rw [hcur] at h
      cases n with
      | file => cases h
      | dir =>
        have hne : cur ≠ key := by
          intro h0; rw [h0, hkey] at hcur; cases hcur
        have hnode : FS.node { fs with nodes := (key, .dir) :: fs.nodes } cur = some .dir := by
          rw [← hcur]
          simp only [FS.node, List.lookup]
          have : (cur == key) = false := by simpa using hne
          rw [this]
        rw [hnode]
        simp only at h ⊢
        split_ifs at h ⊢ <;> exact ih _ _ h

/-- After a successful `os.Mkdir` the path is a directory. -/
theorem Stat_Mkdir (fs fs1 : FS) (name : Path) (h : Mkdir fs name = (fs1, none)) :
    Stat fs1 name = .ok .dir := by
  unfold Mkdir at h
  by_cases hnil : name = []
  · simp [hnil] at h
  · rw [if_neg hnil] at h
    cases hd : name.reverse.dropWhile (fun c => c == "") with
    | nil => rw [hd] at h; simp at h
    | cons last initRev =>
      rw [hd] at h
      simp only at h
      obtain ⟨hlast, es, hes, hname⟩ := split_last name last initRev hd
      cases hw : walk fs [] initRev.reverse with
      | error e => rw [hw] at h; simp at h
      | ok parent =>
        rw [hw] at h
        simp only at h
        cases hp : fs.node parent with
        | none => rw [hp] at h; simp at h
        | some n =>
          rw [hp] at h
          cases n with
          | file => simp at h
          | dir =>
            simp only at h
            by_cases hden : parent ∈ fs.denied
            · simp [hden] at h
            · rw [if_neg hden] at h
              by_cases hdot : last = "." ∨ last = ".."
              · simp [hdot] at h
              · rw [if_neg hdot] at h
                cases hk : fs.node (parent ++ [last]) with
                | some n => rw [hk] at h; simp at h
                | none =>
                  rw [hk] at h
                  simp only at h
                  by_cases hro : parent ∈ fs.readOnly
                  · simp [hro] at h
                  · rw [if_neg hro] at h
                    simp only [Prod.mk.injEq, and_true] at h
                    have hnp : fs1.node parent = some .dir := by
                      rw [← h, ← hp]
                      simp only [FS.node, List.lookup]
                      have : (parent == parent ++ [last]) = false := by simp
                      rw [this]
                    have hnk : fs1.node (parent ++ [last]) = some .dir := by
                      rw [← h]
                      simp [FS.node, List.lookup]
                    have hden1 : fs1.denied = fs.denied := by rw [← h]
                    have hw1 : walk fs1 [] initRev.reverse = .ok parent := by
                      rw [← h]
                      exact walk_create fs (parent ++ [last]) hk _ _ _ hw
                    have hstep : walk fs1 parent ([last] ++ es) = .ok (parent ++ [last]) := by
                      rw [List.singleton_append]
                      simp only [walk, hnp, hlast, hden1, hden, if_false]
                      have h1 : last ≠ "." := fun h0 => hdot (Or.inl h0)
                      have h2 : last ≠ ".." := fun h0 => hdot (Or.inr h0)
                      simp only [h1, h2, if_false]
                      exact walk_separators fs1 _ hnk es hes
                    unfold Stat
                    rw [if_neg hnil, hname, List.append_assoc, walk_append, hw1]
                    simp only
                    rw [hstep]
                    simp only [hnk]

/-- After a successful `os.MkdirAll` the path is a directory. -/
theorem Stat_mkdirAllFuel (fuel : Nat) (fs fs1 : FS) (path : Path)
    (h : mkdirAllFuel fuel fs path = (fs1, none)) : Stat fs1 path = .ok .dir := by
  cases fuel with
  | zero => simp [mkdirAllFuel] at h
  | succ fuel =>
    unfold mkdirAllFuel at h
    cases hs : Stat fs path with
    | ok nd =>
      rw [hs] at h
      cases nd with
      | dir =>
        simp only [Prod.mk.injEq, and_true] at h
        rw [← h]; exact hs
      | file => simp at h
    | error e =>
      rw [hs] at h
      simp only at h
      rcases hrec : (if parentOf path = [] then (fs, none)
        else mkdirAllFuel fuel fs (parentOf path)) with ⟨fsp, errp⟩
      rw [hrec] at h
      cases errp with
      | some e1 => simp at h
      | none =>
        simp only at h
        rcases hmk : Mkdir fsp path with ⟨fs2, err2⟩
        rw [hmk] at h
        cases err2 with
        | none =>
          simp only [Prod.mk.injEq, and_true] at h
          rw [← h]
          exact Stat_Mkdir fsp fs2 _ hmk
        | some e2 =>
          simp only at h
          cases hs2 : Stat fs2 path with
          | error e3 => rw [hs2] at h; simp at h
          | ok nd2 =>
            rw [hs2] at h
            cases nd2 with
            | file => simp at h
            | dir =>
              simp only [Prod.mk.injEq, and_true] at h
              rw [← h]; exact hs2

/-- After a successful `MkDir` the path is a directory. -/
theorem Stat_MkDir (fs fs1 : FS) (src : Path) (h : MkDir fs src = (fs1, none)) :
    Stat fs1 src = .ok .dir := by
  unfold MkDir MkdirAll at h
  rcases hrec : mkdirAllFuel (src.length + 1) fs src with ⟨fs2, err2⟩
  rw [hrec] at h
  cases err2 with
  | some e => simp at h
  | none =>
    simp only [Prod.mk.injEq, and_true] at h
    rw [← h]
    exact Stat_mkdirAllFuel _ fs fs2 src hrec

/-- Idempotence of `IsNotExistMkDir` in result and state: after a first call that returned no
error, a second call on the same path returns no error, does not call `MkDir` and leaves the
file-system state as the first call left it. -/
theorem IsNotExistMkDir_second_call (fs : FS) (src : Path)
    (h : (IsNotExistMkDir fs src).err = none) :
    (IsNotExistMkDir (IsNotExistMkDir fs src).fs src).err = none
    ∧ (IsNotExistMkDir (IsNotExistMkDir fs src).fs src).mkDirCalls = []
    ∧ (IsNotExistMkDir (IsNotExistMkDir fs src).fs src).fs = (IsNotExistMkDir fs src).fs := by
  have key : ∀ fs1 : FS, CheckExist fs1 src = false →
      IsNotExistMkDir fs1 src = { fs := fs1, err := none, mkDirCalls := [] } := by
    intro fs1 hc
    unfold IsNotExistMkDir
    simp [hc]
  cases hc : CheckExist fs src with
  | false =>
    rw [key fs hc]
    simp only
    rw [key fs hc]
    simp
  | true =>
    have hfirst : ∃ fs1, IsNotExistMkDir fs src = { fs := fs1, err := none, mkDirCalls := [src] }
        ∧ MkDir fs src = (fs1, none) := by
      unfold IsNotExistMkDir at h ⊢
      simp only [hc, Bool.not_true, beq_self_eq_true, if_true] at h ⊢
      rcases hmk : MkDir fs src with ⟨fs1, err1⟩
      rw [hmk] at h
      cases err1 with
      | some e => simp at h
      | none => exact ⟨fs1, rfl, rfl⟩
    obtain ⟨fs1, hrun, hmk⟩ := hfirst
    have hstat := Stat_MkDir fs fs1 src hmk
    have hc1 : CheckExist fs1 src = false := by
      unfold CheckExist
      rw [hstat]; rfl
    rw [hrun]
    simp only
    rw [key fs1 hc1]
    simp

/-- C9 fails on the code where the path names a regular file: `os.Stat` succeeds, so the
first call of `IsNotExistMkDir` skips `MkDir` and returns no error, the second call does the
same, and the path still names the regular file: no directory is present. The sibling
`MkDir` reports `ENOTDIR` on the same input. -/
theorem IsNotExistMkDir_regular_file :
    Stat (FS.mk [(["a"], .file)] [] []) ["a"] = .ok .file
    ∧ (IsNotExistMkDir (FS.mk [(["a"], .file)] [] []) ["a"]).err = none
    ∧ (IsNotExistMkDir (IsNotExistMkDir (FS.mk [(["a"], .file)] [] []) ["a"]).fs ["a"]).err
        = none
    ∧ (IsNotExistMkDir (IsNotExistMkDir (FS.mk [(["a"], .file)] [] []) ["a"]).fs
        ["a"]).mkDirCalls = []
    ∧ (IsNotExistMkDir (IsNotExistMkDir (FS.mk [(["a"], .file)] [] []) ["a"]).fs ["a"]).fs
        = FS.mk [(["a"], .file)] [] []
    ∧ Stat (IsNotExistMkDir (IsNotExistMkDir (FS.mk [(["a"], .file)] [] []) ["a"]).fs
        ["a"]).fs ["a"] = .ok .file
    ∧ (MkDir (FS.mk [(["a"], .file)] [] []) ["a"]).2 = some .ErrNotDir := by
  decide

/-- On every state and path `CheckExist` is the negation of `file.Exists`. -/
theorem CheckExist_eq_not_Exists (fs : FS) (src : Path) :
    CheckExist fs src = !file.Exists fs src := by
  unfold CheckExist file.Exists
  cases IsNotExist (errOf (Stat fs src)) <;> rfl

/-- C10 fails on the code: for a file that exists `CheckExist` returns false while
`file.Exists` returns true, and for a path that does not exist `CheckExist` returns true while
`file.Exists` returns false. -/
theorem CheckExist_inverted :
    Stat (FS.mk [(["a"], .file)] [] []) ["a"] = .ok .file
    ∧ CheckExist (FS.mk [(["a"], .file)] [] []) ["a"] = false
    ∧ file.Exists (FS.mk [(["a"], .file)] [] []) ["a"] = true
    ∧ Stat (FS.mk [(["a"], .file)] [] []) ["b"] = .error .ErrNotExist
    ∧ CheckExist (FS.mk [(["a"], .file)] [] []) ["b"] = true
    ∧ file.Exists (FS.mk [(["a"], .file)] [] []) ["b"] = false := by
  decide

/-! ## `HttpGet` -/

/-- Whenever the proxy URL parses, the request is built and sent, and the response has status
429, `HttpGet` returns an empty body and the nil error. -/
theorem HttpGet_429 (env : HttpEnv) (targetURL proxyURL : String)
    (hparse : (env.urlParse proxyURL).2 = none)
    (hreq : (env.newRequest "GET" targetURL).2 = none)
    (hdo : (env.clientDo (env.urlParse proxyURL).1 (env.newRequest "GET" targetURL).1).2 = none)
    (hstatus : (env.clientDo (env.urlParse proxyURL).1
      (env.newRequest "GET" targetURL).1).1.StatusCode = StatusTooManyRequests) :
    HttpGet env targetURL proxyURL = ([], none) := by
  rcases hp : env.urlParse proxyURL with ⟨proxyURLParsed, err⟩
  rw [hp] at hparse hdo hstatus
  simp only at hparse hdo hstatus
  subst hparse
  rcases hr : env.newRequest "GET" targetURL with ⟨req, err⟩
  rw [hr] at hreq hdo hstatus
  simp only at hreq hdo hstatus
  subst hreq
  rcases hd : env.clientDo proxyURLParsed req with ⟨resp, err⟩
  rw [hd] at hdo hstatus
  simp only at hdo hstatus
  subst hdo
  simp [HttpGet, hp, hr, hd, hstatus]

/-- C7 fails on the code: an exchange that is sent successfully and answered with status 429
makes `HttpGet` return an empty body together with the nil error. -/
theorem HttpGet_429_nil_error :
    HttpGet
      (HttpEnv.mk (fun s => (s, none)) (fun _ url => (url, none))
        (fun _ _ => (Response.mk 429 ([114, 97, 116, 101], none), none)))
      "http://example.com/" "http://127.0.0.1:8080" = ([], none) := by
  decide

end helpers
